import Mathlib

/-!
Verification development for the `win-nfd-rs` repository: a shallow embedding
of its wide-string core (`src/c_wide_string.rs`), the path-resolution retry
loop (`src/fileapi.rs`), and the shell-item / dialog / filter-list resource
wrappers (`src/shobjidl.rs`), with theorems settling the frozen claims.

Code units (Rust `u16`) are modelled as `Nat`; no arithmetic on them occurs
in the modelled code, only comparison with zero.  Fallible operations return
`Sum`/`Option`; a Rust panic is modelled as `Option.none`.
-/

namespace WinNfd

/-! ## Wide string model (`src/c_wide_string.rs`)

A `CWideString` / `CWideStr` is modelled by the list of code units of its
inner buffer, terminator included (the Rust `Box<[u16]>` resp. `[u16]`).
-/

/-- The invariant of `CWideStr` / `CWideString`: the buffer is a zero-free
sequence followed by the single terminating zero unit. -/
def CWideStrValid (l : List Nat) : Prop :=
  ∃ s : List Nat, l = s ++ [0] ∧ 0 ∉ s

/-- Embeds `Iterator::position(|el| el == 0)` as used by `CWideString::new`
and `CWideString::from_vec_with_nul`: index of the first zero unit. -/
def findNul : List Nat → Option Nat
  | [] => none
  | x :: xs => if x = 0 then some 0 else (findNul xs).map (· + 1)

/-- Embeds `NulError(usize, Vec<u16>)` from `src/c_wide_string.rs`. -/
structure NulError where
  pos : Nat
  data : List Nat
deriving DecidableEq, Repr

/-- `NulError::nul_position`. -/
def NulError.nulPosition (e : NulError) : Nat := e.pos

/-- `NulError::into_vec`. -/
def NulError.intoVec (e : NulError) : List Nat := e.data

/-- Embeds `CWideString::new` on an already-wide input (the
`IntoWide for Vec<u16>` route, which keeps the contents unchanged): scan for
the first zero unit; if found at index `i`, fail with `NulError(i, data)`
carrying the untouched input; otherwise push the terminator. -/
def cwideNew (data : List Nat) : Sum NulError (List Nat) :=
  match findNul data with
  | some i => Sum.inl ⟨i, data⟩
  | none => Sum.inr (data ++ [0])

/-- Embeds `CWideStr::as_slice`: `&self.inner[..self.inner.len() - 1]`,
terminator excluded. -/
def asSlice (l : List Nat) : List Nat := l.take (l.length - 1)

/-- Embeds `CWideStr::as_slice_with_nul`: `&self.inner[..self.inner.len()]`,
the whole buffer. -/
def asSliceWithNul (l : List Nat) : List Nat := l

/-- Embeds `FromWideWithNulErrorKind` from `src/c_wide_string.rs`. -/
inductive FromWideWithNulErrorKind where
  | interiorNul (pos : Nat)
  | notNulTerminated
deriving DecidableEq, Repr

/-- Embeds `FromVecWithNulError` from `src/c_wide_string.rs`. -/
structure FromVecWithNulError where
  errorKind : FromWideWithNulErrorKind
  data : List Nat
deriving DecidableEq, Repr

/-- Embeds `CWideString::from_vec_with_nul`: the first zero must sit at the
last index; no zero at all is `NotNulTerminated`; an earlier zero is
`InteriorNul` at its index. -/
def fromVecWithNul (data : List Nat) : Sum FromVecWithNulError (List Nat) :=
  match findNul data with
  | some nulPos =>
      if nulPos = data.length - 1 then Sum.inr data
      else Sum.inl ⟨.interiorNul nulPos, data⟩
  | none => Sum.inl ⟨.notNulTerminated, data⟩

/-- Embeds `Index<RangeFrom<usize>> for CWideStr`: over
`as_slice_with_nul`, in-bounds start indices yield the suffix, out-of-bounds
starts panic (`none`). -/
def indexFrom (l : List Nat) (k : Nat) : Option (List Nat) :=
  if k < (asSliceWithNul l).length then some ((asSliceWithNul l).drop k)
  else none

/-- Embeds `IntoWide for &CWideStr`: copy of `as_slice` (terminator
excluded), one slot reserved for a new terminator. -/
def cwideStrIntoWide (l : List Nat) : List Nat := asSlice l

/-- Embeds `ToOwned for CWideStr`:
`CWideString::new(self).expect("invalid CWideStr")`; the `expect` of a panic
is modelled by `Option`. -/
def cwideStrToOwned (l : List Nat) : Option (List Nat) :=
  match cwideNew (cwideStrIntoWide l) with
  | Sum.inl _ => none
  | Sum.inr w => some w

/-! ### Scanner lemmas -/

theorem findNul_eq_none_of_no_zero {l : List Nat} (h : ∀ x ∈ l, x ≠ 0) :
    findNul l = none := by
  induction l with
  | nil => rfl
  | cons x xs ih =>
      have hx : x ≠ 0 := h x (List.mem_cons_self x xs)
      have hxs : findNul xs = none := ih fun y hy => h y (List.mem_cons_of_mem x hy)
      simp [findNul, hx, hxs]

theorem no_zero_of_findNul_eq_none {l : List Nat} (h : findNul l = none) :
    ∀ x ∈ l, x ≠ 0 := by
  induction l with
  | nil => intro x hx; cases hx
  | cons x xs ih =>
      intro y hy
      by_cases hx : x = 0
      · simp [findNul, hx] at h
      · rw [findNul, if_neg hx] at h
        cases hfx : findNul xs with
        | none =>
            rcases List.mem_cons.mp hy with hxy | hmem
            · simpa [hxy] using hx
            · exact ih hfx y hmem
        | some q => rw [hfx] at h; simp at h

theorem findNul_spec {l : List Nat} {p : Nat} (h : findNul l = some p) :
    l.get? p = some 0 ∧ ∀ j < p, l.get? j ≠ some 0 := by
  induction l generalizing p with
  | nil => cases h
  | cons x xs ih =>
      by_cases hx : x = 0
      · rw [findNul, if_pos hx] at h
        cases h
        exact ⟨by simp [hx], fun j hj => by omega⟩
      · rw [findNul, if_neg hx] at h
        cases hfx : findNul xs with
        | none => rw [hfx] at h; simp at h
        | some q =>
            rw [hfx] at h
            have hqp : q + 1 = p := by simpa using h
            obtain ⟨hget, hbefore⟩ := ih hfx
            subst hqp
            refine ⟨by simpa using hget, ?_⟩
            intro j hj
            cases j with
            | zero => simpa using hx
            | succ j =>
                have := hbefore j (by omega)
                simpa using this

theorem findNul_of_first_zero {l : List Nat} {p : Nat}
    (hget : l.get? p = some 0) (hfirst : ∀ j < p, l.get? j ≠ some 0) :
    findNul l = some p := by
  induction l generalizing p with
  | nil => simp [List.get?] at hget
  | cons x xs ih =>
      cases p with
      | zero =>
          have hx : x = 0 := by simpa using hget
          simp [findNul, hx]
      | succ p =>
          have hx : x ≠ 0 := by
            have := hfirst 0 (Nat.succ_pos p)
            simpa using this
          have hxs : findNul xs = some p := by
            refine ih (by simpa using hget) ?_
            intro j hj
            have := hfirst (j + 1) (by omega)
            simpa using this
          simp [findNul, hx, hxs]

/-! ## Path resolution (`src/fileapi.rs`)

`get_full_path_name` calls `GetFullPathNameW` in a loop.  The foreign
resolver is modelled as a function from the buffer length passed
(`size : u32`, as `Nat`) to the returned `u32`: `0` on error, the copied
length (terminator excluded) on success, the required buffer length
(terminator included) when the buffer is too small.  Rust's `loop` is given
fuel; `none` models nontermination within that fuel. -/

/-- `winapi::shared::minwindef::MAX_PATH`. -/
def MAX_PATH : Nat := 260

/-- Outcome of `get_full_path_name`: the foreign error path, or success
carrying the buffer capacity at return and the returned length. -/
inductive GfpnOutcome where
  | err
  | ok (bufCap : Nat) (retLen : Nat)
deriving DecidableEq, Repr

/-- Embeds the `loop` body of `get_full_path_name`.  State: `size` is the
`u32` passed as the buffer length (reassigned to the call's return value
each round), `cap` the capacity of `path` (initially
`Vec::with_capacity(MAX_PATH)`; `path.reserve(size_usize)` keeps it at
least the requested amount), `attempts` the number of foreign calls made.
The loop exits on `ret == 0` (error) or `ret < MAX_PATH` (taken as
success); otherwise it reserves and retries. -/
def gfpnLoop (resolve : Nat → Nat) : Nat → Nat → Nat → Nat →
    Option (GfpnOutcome × Nat)
  | 0, _, _, _ => none
  | fuel + 1, size, cap, attempts =>
      if resolve size = 0 then some (.err, attempts + 1)
      else if resolve size < MAX_PATH then some (.ok cap (resolve size), attempts + 1)
      else gfpnLoop resolve fuel (resolve size) (max cap (resolve size)) (attempts + 1)

/-- Embeds `get_full_path_name`: start with a `MAX_PATH`-capacity buffer and
`size = MAX_PATH`. -/
def get_full_path_name (resolve : Nat → Nat) (fuel : Nat) :
    Option (GfpnOutcome × Nat) :=
  gfpnLoop resolve fuel MAX_PATH MAX_PATH 0

/-- The behaviour of `GetFullPathNameW` resolving a fixed path of `pathLen`
code units (terminator excluded): a buffer of length at least `pathLen + 1`
receives the path and the call returns `pathLen`; a smaller buffer makes the
call report the required length `pathLen + 1`. -/
def mockResolve (pathLen : Nat) (size : Nat) : Nat :=
  if pathLen + 1 ≤ size then pathLen else pathLen + 1

/-! ## Shell item ownership (`src/shobjidl.rs`)

`ShellItem` wraps one foreign reference.  Its lifecycle is the spec's
three-state machine; the mock foreign runtime counts releases, split into
those performed by the consuming operations' hand-off (the COM side
consumes the reference passed to `SetDefaultFolder` / `SetFolder`, per the
code's `// Ownership passed to com`) and those performed by the wrapper's
`Drop` impl (`self.0.as_ref().Release()`). -/

/-- The spec's three-state lifecycle of an external handle. -/
inductive HandleState where
  | unreleased
  | released
  | disarmed
deriving DecidableEq, Repr

/-- A `ShellItem` wrapper together with the mock runtime's release
counters. -/
structure ItemSim where
  state : HandleState
  opReleases : Nat
  dropReleases : Nat
deriving DecidableEq, Repr

/-- A freshly constructed `ShellItem` (a factory call succeeded with a
non-null pointer): no release has happened yet. -/
def initItem : ItemSim := ⟨.unreleased, 0, 0⟩

/-- `winapi::shared::winerror::FAILED`: an `HRESULT` is a failure iff it is
negative. -/
def FAILED (hr : Int) : Prop := hr < 0

instance (hr : Int) : Decidable (FAILED hr) := by
  unfold FAILED; infer_instance

/-- Embeds `FileDialog::set_default_folder(item)`: the foreign call returns
`hr` and takes over the item's reference (one release on the foreign side,
attributed to this operation), then `std::mem::forget(item)` disarms the
wrapper unconditionally; finally `hr` is checked with `FAILED`. -/
def setDefaultFolder (hr : Int) (s : ItemSim) : Sum Int Unit × ItemSim :=
  (if FAILED hr then Sum.inl hr else Sum.inr (),
   { s with state := .disarmed, opReleases := s.opReleases + 1 })

/-- Embeds `FileDialog::set_folder(item)`: identical hand-off structure to
`set_default_folder`. -/
def setFolder (hr : Int) (s : ItemSim) : Sum Int Unit × ItemSim :=
  (if FAILED hr then Sum.inl hr else Sum.inr (),
   { s with state := .disarmed, opReleases := s.opReleases + 1 })

/-- Embeds `Drop for ShellItem`: the destructor runs only for a wrapper
that still owns its reference, and then calls `Release()` once; a forgotten
(disarmed) wrapper's destructor never runs. -/
def dropItem (s : ItemSim) : ItemSim :=
  match s.state with
  | .unreleased => { s with state := .released, dropReleases := s.dropReleases + 1 }
  | _ => s

/-- Events applicable to a shell item wrapper after construction. -/
inductive ItemEvent where
  | dropEv
  | setDefaultFolderEv (hr : Int)
  | setFolderEv (hr : Int)

/-- One lifecycle event applied to the simulation state. -/
def stepItem (s : ItemSim) (e : ItemEvent) : ItemSim :=
  match e with
  | .dropEv => dropItem s
  | .setDefaultFolderEv hr => (setDefaultFolder hr s).2
  | .setFolderEv hr => (setFolder hr s).2

/-- A sequence of lifecycle events applied in order. -/
def runItem (s : ItemSim) (es : List ItemEvent) : ItemSim :=
  es.foldl stepItem s

/-! ## Filter list (`src/shobjidl.rs`)

`FileFilters` keeps a `Vec<COMDLG_FILTERSPEC>` of raw pointers beside a
`Vec` of the owning `(name, filter)` pairs.  A raw pointer taken from a
`CWideStr` buffer is modelled by the buffer's contents, so a
`COMDLG_FILTERSPEC` is the pair of the two pointed-to buffers. -/

/-- Embeds `FileFilters`: the exported descriptor array and the owning
storage.  Each element of either list is a `(name, filter)` pair of inner
buffers (terminator included). -/
structure FileFilters where
  filters : List (List Nat × List Nat)
  storage : List (List Nat × List Nat)
deriving DecidableEq, Repr

/-- Embeds `FileFilters::new`. -/
def FileFilters.new : FileFilters := ⟨[], []⟩

/-- Embeds `FileFilters::len`: the descriptor count. -/
def FileFilters.len (s : FileFilters) : Nat := s.filters.length

/-- Embeds `FileFilters::add_filter`: push a descriptor whose pointers
reference the stored pair's buffers, then push the owning pair. -/
def FileFilters.addFilter (s : FileFilters) (name filter : List Nat) :
    FileFilters :=
  { filters := s.filters ++ [(name, filter)],
    storage := s.storage ++ [(name, filter)] }

/-- Appending a whole list of `(name, filter)` pairs via `add_filter`. -/
def FileFilters.addAll (s : FileFilters) (ps : List (List Nat × List Nat)) :
    FileFilters :=
  ps.foldl (fun acc p => acc.addFilter p.1 p.2) s

/-! ## Wide-string helper lemmas -/

theorem asSlice_append_nul (s : List Nat) : asSlice (s ++ [0]) = s := by
  simp [asSlice]

/-! ## Claim theorems -/

/-- C4: for every code-unit sequence containing no zero unit,
`CWideString::new` succeeds and `as_slice` of the result returns exactly the
original sequence (the appended terminator excluded). -/
theorem new_then_asSlice (data : List Nat) (h : ∀ x ∈ data, x ≠ 0) :
    cwideNew data = Sum.inr (data ++ [0]) ∧ asSlice (data ++ [0]) = data := by
  constructor
  · unfold cwideNew
    rw [findNul_eq_none_of_no_zero h]
  · exact asSlice_append_nul data

/-- Witness for C4 at the concrete zero-free sequence `[1, 2]`. -/
theorem new_then_asSlice_witness :
    cwideNew [1, 2] = Sum.inr [1, 2, 0] ∧ asSlice [1, 2, 0] = [1, 2] :=
  new_then_asSlice [1, 2] (by decide)

/-- C5 counterexample: the sequence `[0, 0]` contains a zero unit at
position `p = 1` with `1 < length`, yet `CWideString::new` fails with an
error whose `nul_position` is `0`, not `1` — the error reports the first
zero, so the claim as stated (for every position holding a zero) is false. -/
theorem new_nul_position_counterexample :
    ([0, 0] : List Nat).get? 1 = some 0 ∧ 1 < ([0, 0] : List Nat).length ∧
    cwideNew [0, 0] = Sum.inl ⟨0, [0, 0]⟩ ∧
    (NulError.mk 0 [0, 0]).nulPosition ≠ 1 := by
  refine ⟨rfl, by decide, ?_, by decide⟩
  rfl

/-- C5 (amended): for every code-unit sequence whose first zero unit sits at
position `p` (so `p < length`), `CWideString::new` fails with an error whose
`nul_position` is `p` and whose `into_vec` returns the original sequence
unmodified, with no terminator appended. -/
theorem new_fails_at_first_nul (data : List Nat) (p : Nat)
    (hget : data.get? p = some 0) (hfirst : ∀ j < p, data.get? j ≠ some 0) :
    cwideNew data = Sum.inl ⟨p, data⟩ ∧
    (NulError.mk p data).nulPosition = p ∧
    (NulError.mk p data).intoVec = data := by
  refine ⟨?_, rfl, rfl⟩
  unfold cwideNew
  rw [findNul_of_first_zero hget hfirst]

/-- Witness for the amended C5 at `[1, 0, 2]`, whose first zero is at
position `1`. -/
theorem new_fails_at_first_nul_witness :
    cwideNew [1, 0, 2] = Sum.inl ⟨1, [1, 0, 2]⟩ ∧
    (NulError.mk 1 [1, 0, 2]).nulPosition = 1 ∧
    (NulError.mk 1 [1, 0, 2]).intoVec = [1, 0, 2] :=
  new_fails_at_first_nul [1, 0, 2] 1 rfl
    (by intro j hj; interval_cases j; decide)

/-- C6: `CWideString::from_vec_with_nul` has exactly three outcomes:
success when the only zero unit is at the last position, and then
`as_slice_with_nul` of the result returns the input unchanged;
`NotNulTerminated` when no zero unit occurs anywhere; and `InteriorNul p`
for a position `p` holding a zero before the final position, when such a
position exists. -/
theorem fromVecWithNul_trichotomy (data : List Nat) :
    (data ≠ [] → data.get? (data.length - 1) = some 0 →
      (∀ i, i + 1 < data.length → data.get? i ≠ some 0) →
      fromVecWithNul data = Sum.inr data ∧ asSliceWithNul data = data) ∧
    ((∀ x ∈ data, x ≠ 0) →
      fromVecWithNul data = Sum.inl ⟨.notNulTerminated, data⟩) ∧
    (∀ p, p + 1 < data.length → data.get? p = some 0 →
      ∃ q, q + 1 < data.length ∧ data.get? q = some 0 ∧
        fromVecWithNul data = Sum.inl ⟨.interiorNul q, data⟩) := by
  refine ⟨?_, ?_, ?_⟩
  · intro hne hlast hno
    have hlen : 0 < data.length := List.length_pos.mpr hne
    have hfirst : findNul data = some (data.length - 1) := by
      refine findNul_of_first_zero hlast ?_
      intro j hj
      exact hno j (by omega)
    refine ⟨?_, rfl⟩
    unfold fromVecWithNul
    rw [hfirst]
    simp
  · intro hno
    unfold fromVecWithNul
    rw [findNul_eq_none_of_no_zero hno]
  · intro p hp hget
    cases hfn : findNul data with
    | none =>
        exfalso
        have hmem : (0 : Nat) ∈ data := List.get?_mem hget
        exact no_zero_of_findNul_eq_none hfn 0 hmem rfl
    | some q =>
        obtain ⟨hq, hqfirst⟩ := findNul_spec hfn
        have hqp : q ≤ p := by
          by_contra hlt
          exact hqfirst p (by omega) hget
        refine ⟨q, by omega, hq, ?_⟩
        unfold fromVecWithNul
        rw [hfn]
        exact if_neg (by omega)

/-- Witness for C6 at `[1, 0]`, whose only zero is the final element. -/
theorem fromVecWithNul_trichotomy_witness :
    fromVecWithNul [1, 0] = Sum.inr [1, 0] ∧ asSliceWithNul [1, 0] = [1, 0] :=
  (fromVecWithNul_trichotomy [1, 0]).1 (by decide) rfl
    (by
      intro i hi
      simp only [List.length_cons, List.length_nil] at hi
      have hi0 : i = 0 := by omega
      subst hi0
      decide)

/-- C10: for every borrowed view satisfying the wide-string invariant,
`CWideStr::to_owned` never panics and the owned result's content equals the
original view's content. -/
theorem toOwned_of_valid (l : List Nat) (h : CWideStrValid l) :
    cwideStrToOwned l = some l := by
  obtain ⟨s, hl, hns⟩ := h
  subst hl
  unfold cwideStrToOwned cwideStrIntoWide
  rw [asSlice_append_nul]
  unfold cwideNew
  rw [findNul_eq_none_of_no_zero (fun x hx hx0 => hns (hx0 ▸ hx))]

/-- Witness for C10 at the valid view `[65, 0]`. -/
theorem toOwned_of_valid_witness : cwideStrToOwned [65, 0] = some [65, 0] :=
  toOwned_of_valid [65, 0] ⟨[65], rfl, by decide⟩

/-- C3 counterexample: the view `[1, 0]` is valid with terminator-inclusive
length `L = 2`, and slicing at `k = 2 = L` (allowed by the claim's
`k ≤ L`) panics (`none`) instead of yielding a view. -/
theorem index_from_counterexample :
    CWideStrValid [1, 0] ∧ ([1, 0] : List Nat).length = 2 ∧
    indexFrom [1, 0] 2 = none :=
  ⟨⟨[1], rfl, by decide⟩, rfl, rfl⟩

/-- C3 (amended): for every valid view of terminator-inclusive length `L`,
slicing from `k < L` yields the suffix of the content from position `k`
onward, terminator included, and the result is itself terminator-valid;
slicing from any `k ≥ L` (in particular every `k > L`, and also `k = L`)
panics. -/
theorem index_from_spec (l : List Nat) (k : Nat) (h : CWideStrValid l) :
    (k < l.length →
      indexFrom l k = some (l.drop k) ∧ CWideStrValid (l.drop k)) ∧
    (l.length ≤ k → indexFrom l k = none) := by
  obtain ⟨s, hl, hns⟩ := h
  constructor
  · intro hk
    refine ⟨by simp [indexFrom, asSliceWithNul, hk], ?_⟩
    subst hl
    have hks : k ≤ s.length := by
      simpa using Nat.lt_succ_iff.mp (by simpa using hk)
    refine ⟨s.drop k, ?_, ?_⟩
    · rw [List.drop_append_eq_append_drop]
      have hk0 : k - s.length = 0 := by omega
      rw [hk0, List.drop_zero]
    · intro hmem
      exact hns (List.mem_of_mem_drop hmem)
  · intro hk
    simp [indexFrom, asSliceWithNul, Nat.not_lt.mpr hk]

/-- Witness for the amended C3 at the valid view `[1, 0]` sliced from
`k = 1`. -/
theorem index_from_spec_witness :
    indexFrom [1, 0] 1 = some [0] ∧ CWideStrValid [0] :=
  (index_from_spec [1, 0] 1 ⟨[1], rfl, by decide⟩).1 (by decide)

/-! ## Shell item lifecycle lemmas -/

theorem stepItem_not_unreleased (s : ItemSim) (e : ItemEvent)
    (h : s.state ≠ .unreleased) : (stepItem s e).state ≠ .unreleased := by
  cases e with
  | dropEv =>
      unfold stepItem dropItem
      cases hs : s.state with
      | unreleased => exact absurd hs h
      | released => simp [hs]
      | disarmed => simp [hs]
  | setDefaultFolderEv hr => simp [stepItem, setDefaultFolder]
  | setFolderEv hr => simp [stepItem, setFolder]

theorem runItem_not_unreleased (s : ItemSim) (es : List ItemEvent)
    (h : s.state ≠ .unreleased) : (runItem s es).state ≠ .unreleased := by
  induction es generalizing s with
  | nil => exact h
  | cons e es ih => exact ih (stepItem s e) (stepItem_not_unreleased s e h)

/-- C1: for the sequence {construct a `ShellItem`, invoke a consuming
operation (`set_default_folder` when `b = false`, `set_folder` when
`b = true`, with any foreign result `hr`), drop the wrapper}, exactly one
release of the foreign reference occurs, attributed to the consuming
operation's hand-off, and zero releases come from the wrapper's `Drop`
impl; the handle ends disarmed and no continuation of the trace ever
returns it to the unreleased state. -/
theorem handoff_single_release (b : Bool) (hr : Int) :
    (runItem initItem
        [if b then .setFolderEv hr else .setDefaultFolderEv hr,
         .dropEv]).opReleases = 1 ∧
    (runItem initItem
        [if b then .setFolderEv hr else .setDefaultFolderEv hr,
         .dropEv]).dropReleases = 0 ∧
    (runItem initItem
        [if b then .setFolderEv hr else .setDefaultFolderEv hr,
         .dropEv]).state = .disarmed ∧
    ∀ es : List ItemEvent,
      (runItem
          (runItem initItem
            [if b then .setFolderEv hr else .setDefaultFolderEv hr,
             .dropEv]) es).state ≠ .unreleased := by
  have hrun : runItem initItem
      [if b then .setFolderEv hr else .setDefaultFolderEv hr, .dropEv] =
      ⟨.disarmed, 1, 0⟩ := by
    cases b <;> rfl
  refine ⟨by rw [hrun], by rw [hrun], by rw [hrun], ?_⟩
  intro es
  rw [hrun]
  exact runItem_not_unreleased _ es (by simp)

/-- Witness for C1: the opReleases count of the concrete
`set_default_folder` run with foreign result `0`. -/
theorem handoff_single_release_witness :
    (runItem initItem [.setDefaultFolderEv 0, .dropEv]).opReleases = 1 :=
  (handoff_single_release false 0).1

/-- C9: when the foreign call inside `set_default_folder` / `set_folder`
fails, the operation returns the foreign error code, yet the consumed
`ShellItem` is already disarmed: its destructor performs no release and the
caller gets no handle back. -/
theorem consume_disarms_even_on_error (hr : Int) (h : FAILED hr) :
    (setDefaultFolder hr initItem).1 = Sum.inl hr ∧
    (setDefaultFolder hr initItem).2.state = .disarmed ∧
    (setDefaultFolder hr initItem).2.dropReleases = 0 ∧
    dropItem (setDefaultFolder hr initItem).2 = (setDefaultFolder hr initItem).2 ∧
    (setFolder hr initItem).1 = Sum.inl hr ∧
    (setFolder hr initItem).2.state = .disarmed ∧
    (setFolder hr initItem).2.dropReleases = 0 ∧
    dropItem (setFolder hr initItem).2 = (setFolder hr initItem).2 := by
  refine ⟨?_, rfl, rfl, rfl, ?_, rfl, rfl, rfl⟩ <;>
    simp [setDefaultFolder, setFolder, if_pos h]

/-- Witness for C9 at the concrete failing `HRESULT` `-1`. -/
theorem consume_disarms_even_on_error_witness :
    (setDefaultFolder (-1) initItem).1 = Sum.inl (-1) ∧
    (setDefaultFolder (-1) initItem).2.state = .disarmed ∧
    (setDefaultFolder (-1) initItem).2.dropReleases = 0 ∧
    dropItem (setDefaultFolder (-1) initItem).2 = (setDefaultFolder (-1) initItem).2 ∧
    (setFolder (-1) initItem).1 = Sum.inl (-1) ∧
    (setFolder (-1) initItem).2.state = .disarmed ∧
    (setFolder (-1) initItem).2.dropReleases = 0 ∧
    dropItem (setFolder (-1) initItem).2 = (setFolder (-1) initItem).2 :=
  consume_disarms_even_on_error (-1) (by norm_num [FAILED])

/-! ## Filter list lemmas -/

theorem addAll_components (s : FileFilters) (ps : List (List Nat × List Nat)) :
    (s.addAll ps).filters = s.filters ++ ps ∧
    (s.addAll ps).storage = s.storage ++ ps := by
  induction ps generalizing s with
  | nil => simp [FileFilters.addAll]
  | cons p ps ih =>
      obtain ⟨n, f⟩ := p
      have hstep : FileFilters.addAll s ((n, f) :: ps) =
          FileFilters.addAll (s.addFilter n f) ps := rfl
      rw [hstep]
      obtain ⟨h₁, h₂⟩ := ih (s.addFilter n f)
      rw [h₁, h₂]
      simp [FileFilters.addFilter]

/-- C7: after appending `n` `(name, pattern)` pairs (each side
terminator-valid) via `add_filter`, `len()` equals `n`, the descriptor
array and the owning storage have equal length and identical append-only
growth (each `add_filter` appends one matched entry to each), and the
`i`-th descriptor's pointers reference the terminator-valid buffers of the
`i`-th stored pair. -/
theorem add_filter_invariant (ps : List (List Nat × List Nat))
    (h : ∀ p ∈ ps, CWideStrValid p.1 ∧ CWideStrValid p.2) :
    (FileFilters.new.addAll ps).len = ps.length ∧
    (FileFilters.new.addAll ps).filters.length =
      (FileFilters.new.addAll ps).storage.length ∧
    (FileFilters.new.addAll ps).filters = (FileFilters.new.addAll ps).storage ∧
    (∀ (s : FileFilters) (name pat : List Nat),
      (s.addFilter name pat).filters = s.filters ++ [(name, pat)] ∧
      (s.addFilter name pat).storage = s.storage ++ [(name, pat)]) ∧
    ∀ i, i < ps.length →
      ∃ pr, (FileFilters.new.addAll ps).filters.get? i = some pr ∧
        (FileFilters.new.addAll ps).storage.get? i = some pr ∧
        ps.get? i = some pr ∧ CWideStrValid pr.1 ∧ CWideStrValid pr.2 := by
  obtain ⟨hf, hs⟩ := addAll_components FileFilters.new ps
  have hf' : (FileFilters.new.addAll ps).filters = ps := by
    simpa [FileFilters.new] using hf
  have hs' : (FileFilters.new.addAll ps).storage = ps := by
    simpa [FileFilters.new] using hs
  refine ⟨?_, ?_, ?_, ?_, ?_⟩
  · simp [FileFilters.len, hf']
  · rw [hf', hs']
  · rw [hf', hs']
  · intro s name pat
    exact ⟨rfl, rfl⟩
  · intro i hi
    have hpr : ps.get? i = some (ps.get ⟨i, hi⟩) := List.get?_eq_get hi
    have hmem : ps.get ⟨i, hi⟩ ∈ ps := List.get?_mem hpr
    exact ⟨ps.get ⟨i, hi⟩, by rw [hf']; exact hpr, by rw [hs']; exact hpr,
      hpr, (h _ hmem).1, (h _ hmem).2⟩

/-- Witness for C7 at the single valid pair `([5, 0], [7, 0])`. -/
theorem add_filter_invariant_witness :
    (FileFilters.new.addAll [([5, 0], [7, 0])]).len = 1 :=
  (add_filter_invariant [([5, 0], [7, 0])]
    (by
      intro p hp
      rw [List.mem_singleton] at hp
      subst hp
      exact ⟨⟨[5], rfl, by decide⟩, ⟨[7], rfl, by decide⟩⟩)).1

/-! ## Path-resolution retry loop -/

theorem gfpnLoop_mock_diverges (fuel : Nat) :
    ∀ size cap attempts,
      gfpnLoop (mockResolve MAX_PATH) fuel size cap attempts = none := by
  induction fuel with
  | zero => intro size cap attempts; rfl
  | succ fuel ih =>
      intro size cap attempts
      rw [gfpnLoop]
      by_cases hs : MAX_PATH + 1 ≤ size
      · have hres : mockResolve MAX_PATH size = MAX_PATH := by
          unfold mockResolve; rw [if_pos hs]
        rw [hres, if_neg (by norm_num [MAX_PATH]), if_neg (by norm_num [MAX_PATH])]
        exact ih _ _ _
      · have hres : mockResolve MAX_PATH size = MAX_PATH + 1 := by
          unfold mockResolve; rw [if_neg hs]
        rw [hres, if_neg (by norm_num [MAX_PATH]), if_neg (by norm_num [MAX_PATH])]
        exact ih _ _ _

/-- C2 (bug exhibit): against the resolver of a fixed path of exactly
`MAX_PATH` code units — which reports "buffer too small, need
`MAX_PATH + 1`" exactly once (to the initial `MAX_PATH`-sized request) and
succeeds on any larger buffer — `get_full_path_name` never terminates, for
every fuel bound: the loop classifies success by `returned size < MAX_PATH`
instead of comparing against the buffer size it passed, so the claim's
`n + 1`-attempt termination fails for every `n ≥ 1`. -/
theorem get_full_path_name_diverges :
    mockResolve MAX_PATH MAX_PATH = MAX_PATH + 1 ∧
    mockResolve MAX_PATH (MAX_PATH + 1) = MAX_PATH ∧
    ∀ fuel, get_full_path_name (mockResolve MAX_PATH) fuel = none := by
  refine ⟨by norm_num [mockResolve], by norm_num [mockResolve], ?_⟩
  intro fuel
  exact gfpnLoop_mock_diverges fuel _ _ _

end WinNfd
